import Mathlib

/-!
Verification development for the ILS verification bot's document-extraction
and reconciliation pipeline (backend/src/bot/validator.js and the PDF parser
it is bundled with).  Each JavaScript function that the claims refer to is
translated into an executable Lean definition over `List Char` / `String`,
`Nat` and `ℚ`; regular expressions are hand-compiled into scanning functions
that follow the engine's leftmost-match and greedy/lazy backtracking order
(noted where a character-class disjointness argument makes the search
deterministic).  JavaScript numbers are modelled as `ℚ` (with `Option ℚ`
where `NaN` can reach a field), and JavaScript's ASCII-relevant case folding
by `Char.toLower`/`Char.toUpper`.
-/

namespace ILS

/-- The characters matched by the ECMAScript regex class `\s` (and trimmed by
`String.prototype.trim`): tab, LF, VT, FF, CR, space, NBSP, Ogham space,
the U+2000..U+200A spaces, LS, PS, NNBSP, MMSP, ideographic space and BOM. -/
def isWSChar (c : Char) : Bool :=
  c.toNat == 9 || c.toNat == 10 || c.toNat == 11 || c.toNat == 12 ||
  c.toNat == 13 || c.toNat == 32 || c.toNat == 0xa0 || c.toNat == 0x1680 ||
  (0x2000 ≤ c.toNat && c.toNat ≤ 0x200a) || c.toNat == 0x2028 ||
  c.toNat == 0x2029 || c.toNat == 0x202f || c.toNat == 0x205f ||
  c.toNat == 0x3000 || c.toNat == 0xfeff

/-- Case-insensitive character comparison, modelling the regex `i` flag on
the ASCII text the phrase table contains. -/
def ciEqChar (a b : Char) : Bool := a.toLower == b.toLower

/-- Does `pat` occur case-insensitively at the head of `s`? -/
def ciHasPfx : List Char → List Char → Bool
  | [], _ => true
  | _ :: _, [] => false
  | p :: ps, c :: cs => ciEqChar p c && ciHasPfx ps cs

/-- Does `pat` occur (case-sensitively) at the head of `s`?  Used for the
case-sensitive regexes and for `String.prototype.includes`. -/
def csHasPfx : List Char → List Char → Bool
  | [], _ => true
  | _ :: _, [] => false
  | p :: ps, c :: cs => p == c && csHasPfx ps cs

/-- Recursion core of `ciReplaceAll`; the fuel (initially the input
length, which every step decreases) only makes the recursion structural. -/
def ciReplaceAllGo (pat rep : List Char) : Nat → List Char → List Char
  | _, [] => []
  | 0, l => l
  | fuel + 1, c :: cs =>
    if pat.length = 0 then c :: cs
    else if ciHasPfx pat (c :: cs) then
      rep ++ ciReplaceAllGo pat rep fuel ((c :: cs).drop pat.length)
    else
      c :: ciReplaceAllGo pat rep fuel cs

/-- `s.replace(new RegExp(pat, 'gi'), rep)` for a literal pattern `pat`:
scan left to right, replace every non-overlapping case-insensitive
occurrence, and never rescan replacement text. -/
def ciReplaceAll (pat rep s : List Char) : List Char :=
  ciReplaceAllGo pat rep s.length s

/-- The ordered phrase-replacement table of `postProcessOCRText`
(`phraseReplacements`), applied via `new RegExp(wrong, 'gi')` in object-key
insertion order. -/
def phraseTable : List (String × String) :=
  [("Kode 8rg", "Kode Brg"),
   ("Kode 8RG", "Kode Brg"),
   ("Pos TarifI", "Pos Tarif"),
   ("Pos TarifHS", "Pos Tarif/HS"),
   ("Pos Taril", "Pos Tarif"),
   ("Jurnlah", "Jumlah"),
   ("PEMER1TAHUAN", "PEMBERITAHUAN"),
   ("PEM8ERITAHUAN", "PEMBERITAHUAN"),
   ("1MPOR", "IMPOR"),
   ("IMP0R", "IMPOR"),
   ("8ARANG", "BARANG"),
   ("LEMRAR", "LEMBAR"),
   ("LANJIJTAN", "LANJUTAN")]

/-- Phase 1 of `postProcessOCRText`: the phrase-level corrections. -/
def phraseStage (l : List Char) : List Char :=
  phraseTable.foldl (fun acc pr => ciReplaceAll pr.1.data pr.2.data acc) l

/-- Recursion core of `collapseWS` (structural on a fuel that the input
length always covers). -/
def collapseWSGo : Nat → List Char → List Char
  | _, [] => []
  | 0, l => l
  | _ + 1, [c] => [c]
  | fuel + 1, c1 :: c2 :: rest =>
    if isWSChar c1 && isWSChar c2 then
      ' ' :: collapseWSGo fuel ((c2 :: rest).dropWhile isWSChar)
    else
      c1 :: collapseWSGo fuel (c2 :: rest)

/-- `cleaned.replace(/\s{2,}/g, ' ')`: every maximal run of two or more
whitespace characters becomes a single space; a lone whitespace character
(including a lone newline) is left unchanged. -/
def collapseWS (l : List Char) : List Char :=
  collapseWSGo l.length l

/-- Recursion core of `collapseNL` (structural on a fuel that the input
length always covers). -/
def collapseNLGo : Nat → List Char → List Char
  | _, [] => []
  | 0, l => l
  | fuel + 1, c :: rest =>
    if c = '\n' then
      (if 4 ≤ (rest.takeWhile (fun d => d == '\n')).length + 1 then
        ['\n', '\n', '\n']
      else
        List.replicate ((rest.takeWhile (fun d => d == '\n')).length + 1) '\n') ++
        collapseNLGo fuel (rest.dropWhile (fun d => d == '\n'))
    else
      c :: collapseNLGo fuel rest

/-- `cleaned.replace(/\n{4,}/g, '\n\n\n')`: a maximal run of four or more
newlines becomes exactly three newlines; shorter runs are kept. -/
def collapseNL (l : List Char) : List Char :=
  collapseNLGo l.length l

/-- `text.split('\n')` on the character-list level.  Always non-empty. -/
def splitNL : List Char → List (List Char)
  | [] => [[]]
  | c :: rest =>
    if c = '\n' then
      [] :: splitNL rest
    else
      match splitNL rest with
      | [] => [[c]]
      | s :: ss => (c :: s) :: ss

/-- `lines.join('\n')` on the character-list level. -/
def joinNL : List (List Char) → List Char
  | [] => []
  | [s] => s
  | s :: s2 :: ss => s ++ '\n' :: joinNL (s2 :: ss)

/-- `line.trim()`: remove leading and trailing JavaScript whitespace. -/
def trimLine (l : List Char) : List Char :=
  ((l.dropWhile isWSChar).reverse.dropWhile isWSChar).reverse

/-- `cleaned.split('\n').map(line => line.trim()).join('\n')`. -/
def trimLines (l : List Char) : List Char :=
  joinNL ((splitNL l).map trimLine)

/-- Phase 2 of `postProcessOCRText`: the whitespace normalisation, in source
order — collapse whitespace runs, collapse newline runs, trim every line. -/
def wsStage (l : List Char) : List Char :=
  trimLines (collapseNL (collapseWS l))

/-- `PDFParser.postProcessOCRText`: phrase corrections first, then the
whitespace normalisation.  (The surrounding `try/catch` only guards against
engine exceptions, which the pure model cannot raise.) -/
def postProcessOCRText (s : String) : String :=
  String.mk (wsStage (phraseStage s.data))

/-- The phrase stage alone, on `String`. -/
def phraseStageS (s : String) : String :=
  String.mk (phraseStage s.data)

/-! ### The `string-similarity` dependency and the `Validator` class -/

/-- `s.replace(/\s+/g, '')`: delete every whitespace character. -/
def stripAllWS (l : List Char) : List Char := l.filter (fun c => !isWSChar c)

/-- The consecutive character bigrams of a list. -/
def bigrams : List Char → List (Char × Char)
  | a :: b :: rest => (a, b) :: bigrams (b :: rest)
  | _ => []

/-- Multiset intersection count of bigrams, in the order the library walks
the second string's bigrams, consuming matches from the first string's
bigram counts. -/
def bigramOverlap : List (Char × Char) → List (Char × Char) → Nat
  | [], _ => 0
  | b :: bs, pool =>
    if pool.contains b then 1 + bigramOverlap bs (pool.erase b)
    else bigramOverlap bs pool

/-- `stringSimilarity.compareTwoStrings` (Sørensen–Dice coefficient on
character bigrams, as implemented by the `string-similarity` npm package):
strip all whitespace from both strings; identical strings score 1; strings
shorter than two characters score 0; otherwise twice the bigram-multiset
overlap divided by the total number of bigrams. -/
def compareTwoStrings (a b : String) : ℚ :=
  let f := stripAllWS a.data
  let s := stripAllWS b.data
  if f = s then 1
  else if f.length < 2 || s.length < 2 then 0
  else (2 * (bigramOverlap (bigrams s) (bigrams f)) : ℚ) /
    ((f.length : ℚ) + (s.length : ℚ) - 2)

/-- The validation status strings used by `Validator`
(`'OK'`, `'NOT MATCH'`, `'OVER LIMIT'`, `'ERROR'`, `'WARNING'`). -/
inductive VStatus where
  | ok
  | notMatch
  | overLimit
  | error
  | warning
deriving DecidableEq, Repr

/-- The resolved option record built by the `Validator` constructor. -/
structure VOptions where
  nameSimilarityThreshold : ℚ
  allowMultiItemSameSeri : Bool
  strictMode : Bool
deriving DecidableEq, Repr

/-- The `Validator` constructor's option resolution:
`options.nameSimilarityThreshold || 0.75` (a missing or falsy numeric value
— for a number, zero — falls back to the default),
`options.allowMultiItemSameSeri !== false` and
`options.strictMode || false`.  `none` models an absent (`undefined`)
option. -/
def mkValidatorOptions (thr : Option ℚ) (allow : Option Bool)
    (strict : Option Bool) : VOptions :=
  { nameSimilarityThreshold :=
      match thr with
      | none => 3 / 4
      | some v => if v = 0 then 3 / 4 else v
    allowMultiItemSameSeri := allow != some false
    strictMode := strict == some true }

/-- A reference line item parsed from the spreadsheet (`excelItem`):
`rowNumber`, `itemCode`, `itemName`, `qty`, `seriBarang`, `ajuNumber`. -/
structure ExcelItem where
  rowNumber : Nat
  itemCode : String
  itemName : String
  qty : ℚ
  seriBarang : Nat
  ajuNumber : String
deriving DecidableEq, Repr

/-- The object produced by `processDuplicateSeri`: the original reference
item together with the optionally added fields `qtyToCheck`, `isDuplicate`
and `duplicateCount` (`none` models an absent property, as on the items
returned unchanged when `allowMultiItemSameSeri` is off). -/
structure ProcItem extends ExcelItem where
  qtyToCheck : Option ℚ
  isDuplicate : Option Bool
  duplicateCount : Option Nat
deriving DecidableEq, Repr

/-- An extracted document line item (`bcItem`): `seri`, `kodeBrg`,
`uraian`, `qty`, `satuan`.  `qty` is `none` when the JavaScript value is
`NaN` (possible only through the labelled fallback branch of
`parseItemText`, which skips the `isNaN` guard). -/
structure BCItem where
  seri : Nat
  kodeBrg : String
  uraian : String
  qty : Option ℚ
  satuan : String
deriving DecidableEq, Repr

/-- Outcome of one field validation: status, similarity (where computed)
and the optional issue message. -/
structure FieldCheck where
  status : VStatus
  similarity : Option ℚ
  message : Option String
deriving DecidableEq, Repr

/-- `toString ∘ trim ∘ toUpperCase` normalisation used on item codes.
`Char.toUpper` implements the ASCII case mapping; the item codes the
system compares are ASCII alphanumerics. -/
def normCode (s : String) : String :=
  String.mk ((trimLine s.data).map Char.toUpper)

/-- `(similarity * 100).toFixed(0)` for the non-negative similarity scores:
round half away from zero to an integer and print it. -/
def pctString (q : ℚ) : String := toString ⌊q * 100 + 1 / 2⌋

/-- Decimal rendering of a quantity for issue messages.  (JavaScript prints
floats; integral values print without a fractional part, which is the only
case the messages in this development exercise.) -/
def qtyString (q : ℚ) : String :=
  if q.den = 1 then toString q.num else toString q

/-- `Validator.validateItemCode`: normalise both codes; exact match is OK
with similarity 1; otherwise a Dice similarity at or above the configured
threshold is OK (annotated with the percentage), and below it is
NOT MATCH. -/
def validateItemCode (opts : VOptions) (excelCode bcCode : String) :
    FieldCheck :=
  let excelNorm := normCode excelCode
  let bcNorm := normCode bcCode
  if excelNorm = bcNorm then
    ⟨.ok, some 1, none⟩
  else
    let sim := compareTwoStrings excelNorm bcNorm
    if opts.nameSimilarityThreshold ≤ sim then
      ⟨.ok, some sim, some ("Item Code match (" ++ pctString sim ++ "% similar)")⟩
    else
      ⟨.notMatch, some sim,
        some ("Item Code mismatch (Excel: " ++ excelCode ++ ", BC: " ++ bcCode ++ ")")⟩

/-- `Validator.validateQty`: ERROR when either quantity is not a number
(`NaN`, modelled by `none` on the document side); OK when the requested
quantity is at most the document quantity; OVER LIMIT otherwise. -/
def validateQty (excelQty : ℚ) (bcQty : Option ℚ) : FieldCheck :=
  match bcQty with
  | none => ⟨.error, none, some "Invalid qty values"⟩
  | some b =>
    if excelQty ≤ b then ⟨.ok, none, none⟩
    else ⟨.overLimit, none,
      some ("Qty over limit (Req: " ++ qtyString excelQty ++ ", BC: " ++ qtyString b ++ ")")⟩

/-- The overall-status computation at the end of `Validator.validateItem`:
OK when both field statuses are OK, otherwise ERROR when either field
status is ERROR, otherwise WARNING. -/
def overallStatus (ic q : VStatus) : VStatus :=
  if ic = .ok ∧ q = .ok then .ok
  else if ic = .error ∨ q = .error then .error
  else .warning

/-- The spec's §4.4 overall-status rule, stated as a decision table:
OK iff both field statuses are OK; ERROR if either field status is ERROR;
WARNING in every other case. -/
def specOverallStatus : VStatus → VStatus → VStatus
  | .ok, .ok => .ok
  | .error, _ => .error
  | _, .error => .error
  | _, _ => .warning

/-- The three statuses recorded in `result.validation`. -/
structure ValidationTriple where
  itemCode : VStatus
  qty : VStatus
  overall : VStatus
deriving DecidableEq, Repr

/-- One row's validation result (`result` in `Validator.validateItem`). -/
structure ValidationResult where
  rowNumber : Nat
  bcData : Option BCItem
  validation : ValidationTriple
  issues : List String
deriving DecidableEq, Repr

/-- `Validator.validateItem`: a missing document item yields ERROR on every
status with a "seri not found" issue; otherwise the two field checks run
and the overall status is derived from them. -/
def validateItem (opts : VOptions) (excelItem : ProcItem)
    (bcItem : Option BCItem) : ValidationResult :=
  match bcItem with
  | none =>
    { rowNumber := excelItem.rowNumber
      bcData := none
      validation := ⟨.error, .error, .error⟩
      issues := ["Seri " ++ toString excelItem.seriBarang ++ " tidak ditemukan di BC"] }
  | some bc =>
    let icheck := validateItemCode opts excelItem.itemCode bc.kodeBrg
    let qcheck := validateQty excelItem.qty bc.qty
    { rowNumber := excelItem.rowNumber
      bcData := some bc
      validation :=
        ⟨icheck.status, qcheck.status, overallStatus icheck.status qcheck.status⟩
      issues := icheck.message.toList ++ qcheck.message.toList }

/-- The grouping key `` `${item.ajuNumber}_${item.seriBarang}` ``.  (The key
always contains an underscore, so it is never an integer-like JavaScript
object key and object-key enumeration preserves insertion order.) -/
def seriKey (it : ExcelItem) : String :=
  it.ajuNumber ++ "_" ++ toString it.seriBarang

/-- Recursion core of `dedupKeys` (structural on a fuel that the input
length always covers). -/
def dedupKeysGo : Nat → List String → List String
  | _, [] => []
  | 0, l => l
  | fuel + 1, k :: rest => k :: dedupKeysGo fuel (rest.filter (fun x => x ≠ k))

/-- First-occurrence deduplication of the group keys, matching the order
`Object.keys` reports them. -/
def dedupKeys (l : List String) : List String :=
  dedupKeysGo l.length l

/-- `Validator.processDuplicateSeri`: when multi-item-same-seri is allowed,
group the reference items by (aju, seri); a singleton group keeps its own
quantity as `qtyToCheck`; a larger group records the group's summed
quantity as every member's `qtyToCheck`, plus duplicate annotations.
When disallowed, the items are returned unchanged (no added fields). -/
def processDuplicateSeri (opts : VOptions) (items : List ExcelItem) :
    List ProcItem :=
  if opts.allowMultiItemSameSeri = false then
    items.map (fun it => ⟨it, none, none, none⟩)
  else
    (dedupKeys (items.map seriKey)).flatMap (fun k =>
      let group := items.filter (fun it => seriKey it == k)
      match group with
      | [g] => [⟨g, some g.qty, some false, none⟩]
      | g :: gs =>
        let total := (g :: gs).foldl (fun s it => s + it.qty) 0
        (g :: gs).map (fun it => ⟨it, some total, some true, some (g :: gs).length⟩)
      | [] => [])

/-- `PDFParser.findBySeri`: first extracted item with the given serial. -/
def findBySeri (items : List BCItem) (seri : Nat) : Option BCItem :=
  items.find? (fun i => i.seri == seri)

/-- `Validator.validateBatch` over a parsed document's item list: validate
each (processed) reference row against the document item found by serial
lookup.  (The per-row `try/catch` only guards runtime exceptions, which the
pure model cannot raise.) -/
def validateBatch (opts : VOptions) (excelItems : List ProcItem)
    (bcItems : List BCItem) : List ValidationResult :=
  excelItems.map (fun it => validateItem opts it (findBySeri bcItems it.seriBarang))

/-! ### OCR quantity parsing and tariff-code normalisation
(`PDFParser.parseOCRItemText`) -/

def isDigitChar (c : Char) : Bool := c.isDigit

/-- `[A-Za-z0-9_]`, the regex `\w` class. -/
def isWordChar (c : Char) : Bool := c.isAlphanum || c == '_'

/-- `[A-Z]` under the regex `i` flag: any ASCII letter. -/
def isAsciiLetter (c : Char) : Bool := c.isAlpha

/-- `[\d.,]`, the numeric-token class of the quantity patterns. -/
def isNumToken (c : Char) : Bool := isDigitChar c || c == '.' || c == ','

def digitsToNat (l : List Char) : Nat :=
  l.foldl (fun n c => n * 10 + (c.toNat - 48)) 0

/-- `parseFloat` on the non-negative decimal strings these parsers build
(optional leading whitespace, digits, an optional dot, digits; parsing
stops at the first character that cannot extend the number).  `none` is
`NaN`: no leading numeric prefix at all. -/
def jsParseFloat (s : List Char) : Option ℚ :=
  let l := s.dropWhile isWSChar
  let ip := l.takeWhile isDigitChar
  match l.drop ip.length with
  | '.' :: r2 =>
    let fp := r2.takeWhile isDigitChar
    if ip.isEmpty && fp.isEmpty then none
    else some ((digitsToNat ip : ℚ) + (digitsToNat fp : ℚ) / (10 : ℚ) ^ fp.length)
  | _ => if ip.isEmpty then none else some (digitsToNat ip)

/-- `s.replace(',', '.')` for a string pattern: first occurrence only. -/
def replaceFirstComma : List Char → List Char
  | [] => []
  | c :: cs => if c = ',' then '.' :: cs else c :: replaceFirstComma cs

/-- `^\d+\.\d{4,}$`. -/
def isDecimal4Form (l : List Char) : Bool :=
  let ip := l.takeWhile isDigitChar
  match l.drop ip.length with
  | '.' :: r => !ip.isEmpty && decide (4 ≤ r.length) && r.all isDigitChar
  | _ => false

/-- `^\d{1,3}\.\d{3}$`. -/
def isThousandForm (l : List Char) : Bool :=
  let ip := l.takeWhile isDigitChar
  match l.drop ip.length with
  | '.' :: r =>
    decide (1 ≤ ip.length) && decide (ip.length ≤ 3) &&
    decide (r.length = 3) && r.all isDigitChar
  | _ => false

/-- The quantity-string disambiguation of `parseOCRItemText`: dot and comma
together mean dot-grouped thousands with a decimal comma; a lone dot with
four or more trailing digits is a decimal point; a lone dot in the
`\d{1,3}.\d{3}` shape is a thousands separator; otherwise the first comma,
if any, becomes the decimal point. -/
def ocrQtyNormalize (l : List Char) : List Char :=
  if l.contains '.' && l.contains ',' then
    replaceFirstComma (l.filter (fun c => c ≠ '.'))
  else if isDecimal4Form l then l
  else if isThousandForm l then l.filter (fun c => c ≠ '.')
  else replaceFirstComma l

/-- The OCR quantity parser: normalise the captured token, then parse. -/
def parseOCRQty (s : String) : Option ℚ :=
  jsParseFloat (ocrQtyNormalize s.data)

/-- `^\d{4}\.\d{2}\.\d{4}$`. -/
def isDotDotForm : List Char → Bool
  | [a, b, c, d, p, e, f, q, g, h, i, j] =>
    [a, b, c, d, e, f, g, h, i, j].all isDigitChar && p == '.' && q == '.'
  | _ => false

/-- The tariff-code normalisation of `parseOCRItemText`: strip bracket
characters; a dot-free token of length at least ten gets a dot after its
fourth character; a `dddd.dd.dddd` token collapses to `dddd.dddddd`. -/
def normalizeHSCode (hs : List Char) : List Char :=
  let k := hs.filter (fun c => c ≠ '[' && c ≠ ']')
  if !k.contains '.' && decide (10 ≤ k.length) then
    k.take 4 ++ '.' :: k.drop 4
  else if isDotDotForm k then
    k.take 7 ++ k.drop 8
  else k

def normalizeHSCodeS (s : String) : String :=
  String.mk (normalizeHSCode s.data)

/-! ### The two item-extraction strategies (`PDFParser.parseItems`,
`PDFParser.parseItemsFromOCRTable`, `PDFParser.parseOCRItemText`,
`PDFParser.parseItemText`, `PDFParser.findTableSection`).

Each regular expression is compiled by hand to a scanner over `List Char`.
An unanchored JavaScript `match` takes the leftmost start position at which
the whole pattern matches; `scanFirst` reproduces this by trying every
suffix in order.  Greedy quantifiers whose character class is disjoint from
what follows are deterministic (`takeWhile`/`dropWhile`); the remaining
backtracking points are searched in the engine's order (later choice points
first, greedy descending, lazy ascending). -/

def scanFirst {α : Type} (f : List Char → Option α) : List Char → Option α
  | [] => f []
  | c :: cs =>
    match f (c :: cs) with
    | some r => some r
    | none => scanFirst f cs

/-- `String.prototype.includes` (case-sensitive substring test). -/
def containsStr (hay needle : List Char) : Bool :=
  (scanFirst (fun l => if csHasPfx needle l then some () else none) hay).isSome

/-- Take exactly `n` digits, returning them and the rest. -/
def takeDigits : Nat → List Char → Option (List Char × List Char)
  | 0, l => some ([], l)
  | _ + 1, [] => none
  | n + 1, c :: cs =>
    if isDigitChar c then (takeDigits n cs).map (fun p => (c :: p.1, p.2)) else none

/-- `[.,]?` in the engine's greedy order: the consuming alternative first. -/
def sepCandidates : List Char → List (List Char × List Char)
  | [] => [([], [])]
  | c :: cs =>
    if c = '.' || c = ',' then [([c], cs), ([], c :: cs)] else [([], c :: cs)]

/-- `\d{lo,hi}` with `hi = lo + 1`, in greedy order: `hi` digits first. -/
def digitRangeCandidates (hi lo : Nat) (l : List Char) :
    List (List Char × List Char) :=
  (match takeDigits hi l with | some p => [p] | none => []) ++
  (match takeDigits lo l with | some p => [p] | none => [])

/-- All ways to match `\d{4}[.,]?\d{2,3}[.,]?\d{3,4}` at the head, in the
engine's backtracking order; the head of this list is the regex's match. -/
def hsCoreCandidates (l : List Char) : List (List Char × List Char) :=
  match takeDigits 4 l with
  | none => []
  | some (d4, r1) =>
    (sepCandidates r1).flatMap (fun s1 =>
      (digitRangeCandidates 3 2 s1.2).flatMap (fun dm =>
        (sepCandidates dm.2).flatMap (fun s2 =>
          (digitRangeCandidates 4 3 s2.2).map (fun dl =>
            (d4 ++ s1.1 ++ dm.1 ++ s2.1 ++ dl.1, dl.2)))))

/-- Group 2 of the OCR item-line pattern:
`(\d{4}[.,]?\d{2,3}[.,]?\d{3,4}|\d{10})`, alternatives in order. -/
def hsCodeMatch (l : List Char) : Option (List Char × List Char) :=
  match (hsCoreCandidates l).head? with
  | some r => some r
  | none => takeDigits 10 l

/-- `^[\|\s]*(\d+)\s+\[?(…)` applied to a trimmed line: leading pipe/space
noise, the serial number, whitespace, an optional opening bracket, then the
tariff-code token.  Returns the serial and the captured code. -/
def itemLineMatch (line : List Char) : Option (Nat × List Char) :=
  let r0 := line.dropWhile (fun c => c == '|' || isWSChar c)
  let ds := r0.takeWhile isDigitChar
  if ds.isEmpty then none
  else
    let r1 := r0.drop ds.length
    let ws := r1.takeWhile isWSChar
    if ws.isEmpty then none
    else
      let r2 := r1.drop ws.length
      let r3 := match r2 with | '[' :: t => t | _ => r2
      match hsCodeMatch r3 with
      | some (code, _) => some (digitsToNat ds, code)
      | none => none

/-- The block-building loop of `parseItemsFromOCRTable`: starting after the
matched line, append raw lines until the next line whose trimmed form
matches the item pattern, end of input, or ten appended lines. -/
def buildBlockGo (lines : List (List Char)) (i : Nat) :
    Nat → Nat → List Char → List Char
  | 0, _, acc => acc
  | fuel + 1, j, acc =>
    if j < lines.length then
      let lj := lines.getD j []
      if (itemLineMatch (trimLine lj)).isSome then acc
      else
        let acc2 := acc ++ lj ++ ['\n']
        if 10 < j + 1 - i then acc2 else buildBlockGo lines i fuel (j + 1) acc2
    else acc

def buildBlock (lines : List (List Char)) (i : Nat) (line : List Char) :
    List Char :=
  buildBlockGo lines i lines.length (i + 1) (line ++ ['\n'])

/-- The unit alternation `(Piece|Set|Kg|Unit|Pcs|PCS|SET|PIECE|KG|UNIT)`
under `i`.  Any two alternatives that can match at one position consume the
same number of characters, so the first match is the regex's choice. -/
def unitAlts : List String :=
  ["Piece", "Set", "Kg", "Unit", "Pcs", "PCS", "SET", "PIECE", "KG", "UNIT"]

def unitAltMatch (l : List Char) : Option (List Char) :=
  unitAlts.findSome? (fun alt =>
    if ciHasPfx alt.data l then some (l.drop alt.data.length) else none)

/-- The quantity pattern of `parseOCRItemText`,
`([\d.,]+)\s+(unit)\s*\(([A-Z]+)\)/i`, tried at one start position.
Returns the captured quantity token and the parenthesised abbreviation. -/
def qtyUnitAt (l : List Char) : Option (List Char × List Char) :=
  let num := l.takeWhile isNumToken
  if num.isEmpty then none
  else
    let r1 := l.drop num.length
    if (r1.takeWhile isWSChar).isEmpty then none
    else
      match unitAltMatch (r1.dropWhile isWSChar) with
      | none => none
      | some r3 =>
        match r3.dropWhile isWSChar with
        | '(' :: r5 =>
          let ab := r5.takeWhile isAsciiLetter
          if ab.isEmpty then none
          else
            match r5.drop ab.length with
            | ')' :: _ => some (num, ab)
            | _ => none
        | _ => none

def qtyUnitMatch (l : List Char) : Option (List Char × List Char) :=
  scanFirst qtyUnitAt l

/-- The metadata-prefix filter
`^(Kd barang|Langsung|Carton|BM:|Cukai|PPN|PPnBM|PPh|Tidak|Berhub|\d+\s+Carton)/i`. -/
def metaAlts : List String :=
  ["Kd barang", "Langsung", "Carton", "BM:", "Cukai", "PPN", "PPnBM", "PPh",
   "Tidak", "Berhub"]

def isMetaLine (l : List Char) : Bool :=
  metaAlts.any (fun a => ciHasPfx a.data l) ||
  (let ds := l.takeWhile isDigitChar
   !ds.isEmpty &&
     (let r := l.drop ds.length
      let ws := r.takeWhile isWSChar
      !ws.isEmpty && ciHasPfx "Carton".data (r.drop ws.length)))

/-- Does `\s+lit` (case-sensitively) match at the head of `l`? -/
def wsThenLit (lit l : List Char) : Bool :=
  let ws := l.takeWhile isWSChar
  !ws.isEmpty && csHasPfx lit (l.drop ws.length)

/-- The description pattern `^(.+?)(?:\s+Berhub|\s+Langsung|$)`: the capture
is the shortest non-empty prefix after which `\s+Berhub`, `\s+Langsung` or
the end of the line follows. -/
def descCapture (l : List Char) : List Char :=
  match (List.range (l.length + 1)).find? (fun k =>
      decide (1 ≤ k) &&
        (wsThenLit "Berhub".data (l.drop k) ||
         wsThenLit "Langsung".data (l.drop k) || k == l.length)) with
  | some k => l.take k
  | none => l

/-- The second-line description loop of `parseOCRItemText`: skip metadata
lines; take the first capture longer than three characters, trimmed. -/
def descLoop : List (List Char) → List Char
  | [] => []
  | line :: rest =>
    if !isMetaLine line then
      let cap := descCapture line
      if 3 < cap.length then trimLine cap else descLoop rest
    else descLoop rest

/-- The trailing group of the first fallback pattern,
`(?:BM:|DTG:|\d+[.,]\d+\s+(?:Piece|Set|Kg))/i`, at the head of `l`. -/
def p1Trail (l : List Char) : Bool :=
  ciHasPfx "BM:".data l || ciHasPfx "DTG:".data l ||
  (let d1 := l.takeWhile isDigitChar
   !d1.isEmpty &&
     (match l.drop d1.length with
      | c :: r =>
        (c == '.' || c == ',') &&
          (let d2 := r.takeWhile isDigitChar
           !d2.isEmpty &&
             (let r2 := r.drop d2.length
              let ws := r2.takeWhile isWSChar
              !ws.isEmpty &&
                (let r3 := r2.drop ws.length
                 ciHasPfx "Piece".data r3 || ciHasPfx "Set".data r3 ||
                   ciHasPfx "Kg".data r3)))
      | [] => false))

/-- Search of the backtracking points shared by the two fallback patterns:
a greedy `\s+` of maximal length `run` first (descending), then a lazy
`(.+?)` from one character up, then `\s+` and the trailing test. -/
def lazyCaptureSearch (run : Nat) (r : List Char) (trail : List Char → Bool) :
    Option (List Char) :=
  (List.range run).findSome? (fun wi =>
    let body := r.drop (run - wi)
    (List.range body.length).findSome? (fun kk =>
      let rest := body.drop (kk + 1)
      let ws2 := rest.takeWhile isWSChar
      if !ws2.isEmpty && trail (rest.drop ws2.length) then
        some (body.take (kk + 1))
      else none))

/-- First fallback description pattern
`\([A-Z]{2}\)\s+(.+?)\s+(?:BM:|DTG:|\d+[.,]\d+\s+(?:Piece|Set|Kg))/i`
at one start position. -/
def p1At (l : List Char) : Option (List Char) :=
  match l with
  | '(' :: a :: b :: ')' :: r =>
    if isAsciiLetter a && isAsciiLetter b then
      let run := (r.takeWhile isWSChar).length
      if run = 0 then none else lazyCaptureSearch run r p1Trail
    else none
  | _ => none

/-- Second fallback description pattern
`Tidak\s+[A-Z][a-z]+\s+\([A-Z]{2}\)\s+(.+?)\s+(?:BM:|DTG:)/i`
at one start position. -/
def p2At (l : List Char) : Option (List Char) :=
  if ciHasPfx "Tidak".data l then
    let r := l.drop 5
    if (r.takeWhile isWSChar).isEmpty then none
    else
      match r.dropWhile isWSChar with
      | c :: r2 =>
        if isAsciiLetter c then
          let letters := r2.takeWhile isAsciiLetter
          if letters.isEmpty then none
          else
            let r3 := r2.drop letters.length
            if (r3.takeWhile isWSChar).isEmpty then none
            else
              match r3.dropWhile isWSChar with
              | '(' :: a :: b :: ')' :: r4 =>
                if isAsciiLetter a && isAsciiLetter b then
                  let run := (r4.takeWhile isWSChar).length
                  if run = 0 then none
                  else
                    lazyCaptureSearch run r4 (fun t =>
                      ciHasPfx "BM:".data t || ciHasPfx "DTG:".data t)
                else none
              | _ => none
        else none
      | [] => none
  else none

/-- `uraian.replace(/^\|+\s*/, '')`. -/
def stripLeadPipes (l : List Char) : List Char :=
  match l with
  | '|' :: _ => (l.dropWhile (fun c => c == '|')).dropWhile isWSChar
  | _ => l

/-- `match[1].length > 3` guard of the fallback loop, with the trim. -/
def tryCapture : Option (List Char) → Option (List Char)
  | some c => if 3 < c.length then some (trimLine c) else none
  | none => none

def firstLineUraian (firstLine : List Char) : List Char :=
  match tryCapture (scanFirst p1At firstLine) with
  | some u => u
  | none =>
    match tryCapture (scanFirst p2At firstLine) with
    | some u => u
    | none => []

/-- The description extraction of `parseOCRItemText`: trimmed non-empty
lines; the loop over the lines after the first; then the two first-line
fallback patterns; then pipe stripping and a final trim. -/
def extractUraian (block : List Char) : List Char :=
  let lines := ((splitNL block).map trimLine).filter (fun l => !l.isEmpty)
  let u0 := if 1 < lines.length then descLoop (lines.drop 1) else []
  let u1 := if u0.isEmpty then firstLineUraian (lines.getD 0 []) else u0
  trimLine (stripLeadPipes u1)

/-- `PDFParser.parseOCRItemText`: normalise the tariff code, find the
quantity/unit pattern in the block (its absence, or a `NaN` quantity, makes
the item `null`), then extract the description. -/
def parseOCRItemText (seri : Nat) (hsCode block : List Char) : Option BCItem :=
  let kode := normalizeHSCode hsCode
  match qtyUnitMatch block with
  | none => none
  | some (qtyStr, ab) =>
    match jsParseFloat (ocrQtyNormalize qtyStr) with
    | none => none
    | some q =>
      some ⟨seri, String.mk kode, String.mk (extractUraian block), some q,
        String.mk (trimLine ab)⟩

/-- `PDFParser.parseItemsFromOCRTable`: scan every line; on a match, build
the block and parse it; failed items are skipped. -/
def ocrTableItems (text : List Char) : List BCItem :=
  let lines := splitNL text
  (List.range lines.length).foldl (fun acc i =>
    let line := trimLine (lines.getD i [])
    match itemLineMatch line with
    | none => acc
    | some (seri, hs) =>
      match parseOCRItemText seri hs (buildBlock lines i line) with
      | none => acc
      | some item => acc ++ [item]) []

/-! #### Strategy A (`parseItemText` and the `(\d+)\s+Pos Tarif\/HS` marker) -/

/-- One attempt of `(\d+)\s+Pos Tarif\/HS` at the head: digits, whitespace,
the literal marker.  Returns the serial and the matched length. -/
def tryAMatchAt (l : List Char) : Option (Nat × Nat) :=
  let ds := l.takeWhile isDigitChar
  if ds.isEmpty then none
  else
    let r1 := l.drop ds.length
    let ws := r1.takeWhile isWSChar
    if ws.isEmpty then none
    else
      if csHasPfx "Pos Tarif/HS".data (r1.drop ws.length) then
        some (digitsToNat ds, ds.length + ws.length + 12)
      else none

/-- `matchAll`: leftmost matches, resuming after each match. -/
def findAMatchesGo : Nat → List Char → Nat → List (Nat × Nat)
  | 0, _, _ => []
  | _ + 1, [], _ => []
  | fuel + 1, c :: cs, pos =>
    match tryAMatchAt (c :: cs) with
    | some (seri, len) =>
      (pos, seri) :: findAMatchesGo fuel ((c :: cs).drop len) (pos + len)
    | none => findAMatchesGo fuel cs (pos + 1)

/-- The positions and serials of all Strategy-A item markers. -/
def findAMatches (l : List Char) : List (Nat × Nat) :=
  findAMatchesGo l.length l 0

/-- `/Kode Brg\s*:\s*(\w+)/` at one start position. -/
def kodeAt (l : List Char) : Option (List Char) :=
  if csHasPfx "Kode Brg".data l then
    match (l.drop 8).dropWhile isWSChar with
    | ':' :: r2 =>
      let w := (r2.dropWhile isWSChar).takeWhile isWordChar
      if w.isEmpty then none else some w
    | _ => none
  else none

/-- `/Kode Brg\s*:\s*\w+\s+(.+?)(?=Kemasan:|Merk:|$)/s` at one start
position: after the code word and a greedy `\s+` (backtracked descending),
the lazy capture grows until the lookahead — `Kemasan:`, `Merk:` or end of
input — holds. -/
def uraianAt (l : List Char) : Option (List Char) :=
  if csHasPfx "Kode Brg".data l then
    match (l.drop 8).dropWhile isWSChar with
    | ':' :: r2 =>
      let r3 := r2.dropWhile isWSChar
      let w := r3.takeWhile isWordChar
      if w.isEmpty then none
      else
        let r4 := r3.drop w.length
        let run := (r4.takeWhile isWSChar).length
        if run = 0 then none
        else
          (List.range run).findSome? (fun wi =>
            let body := r4.drop (run - wi)
            (List.range body.length).findSome? (fun kk =>
              let rest := body.drop (kk + 1)
              if csHasPfx "Kemasan:".data rest || csHasPfx "Merk:".data rest ||
                  rest.isEmpty then
                some (body.take (kk + 1))
              else none))
    | _ => none
  else none

/-- The pattern `-\s*([\d.,]+)\s*\n\s*-\s*(\w+)` at one start position: a dash, the
quantity token, a whitespace run that must contain a newline, a dash, and
the unit word. -/
def jumlahAt (l : List Char) : Option (List Char × List Char) :=
  match l with
  | '-' :: r =>
    let r1 := r.dropWhile isWSChar
    let num := r1.takeWhile isNumToken
    if num.isEmpty then none
    else
      let r2 := r1.drop num.length
      let run := r2.takeWhile isWSChar
      if run.contains '\n' then
        match r2.drop run.length with
        | '-' :: r3 =>
          let w := (r3.dropWhile isWSChar).takeWhile isWordChar
          if w.isEmpty then none else some (num, w)
        | _ => none
      else none
  | _ => none

/-- `/Jumlah[:\s]*([\d.,]+)\s*(\w+)/i` at one start position.  The numeric
capture is greedy but backtracks (digits are also `\w`), so the capture
shrinks until a non-empty `\w+` follows. -/
def altJumlahAt (l : List Char) : Option (List Char × List Char) :=
  if ciHasPfx "Jumlah".data l then
    let r := (l.drop 6).dropWhile (fun c => c == ':' || isWSChar c)
    let num := r.takeWhile isNumToken
    if num.isEmpty then none
    else
      (List.range num.length).findSome? (fun mi =>
        let m := num.length - mi
        let rest := r.drop m
        let w := (rest.dropWhile isWSChar).takeWhile isWordChar
        if w.isEmpty then none else some (num.take m, w))
  else none

/-- Recursion core of `squashWS` (structural on a fuel that the input
length always covers). -/
def squashWSGo : Nat → List Char → List Char
  | _, [] => []
  | 0, l => l
  | fuel + 1, c :: cs =>
    if isWSChar c then ' ' :: squashWSGo fuel (cs.dropWhile isWSChar)
    else c :: squashWSGo fuel cs

/-- `s.replace(/\s+/g, ' ')`: every maximal whitespace run (of any length)
becomes a single space. -/
def squashWS (l : List Char) : List Char :=
  squashWSGo l.length l

/-- `PDFParser.parseItemText` (Strategy A): the code field is required; the
description defaults to empty; the dash-formatted quantity/unit pair is
preferred, with `NaN` rejected, and the labelled `Jumlah` fallback is used
otherwise — without an `isNaN` guard, exactly as in the source. -/
def parseItemText (seri : Nat) (itemText : List Char) : Option BCItem :=
  match scanFirst kodeAt itemText with
  | none => none
  | some kode =>
    let uraian :=
      match scanFirst uraianAt itemText with
      | some cap => squashWS (trimLine cap)
      | none => []
    match scanFirst jumlahAt itemText with
    | some (num, unit) =>
      match jsParseFloat (replaceFirstComma (num.filter (fun c => c ≠ '.'))) with
      | none => none
      | some q =>
        some ⟨seri, String.mk kode, String.mk uraian, some q,
          String.mk (trimLine unit)⟩
    | none =>
      match scanFirst altJumlahAt itemText with
      | none => none
      | some (num, unit) =>
        some ⟨seri, String.mk kode, String.mk uraian,
          jsParseFloat (replaceFirstComma (num.filter (fun c => c ≠ '.'))),
          String.mk (trimLine unit)⟩

/-- Strategy A of `parseItems`: each marker's block runs to the next marker
(or the end of the text); failed blocks are skipped. -/
def strategyAItems (text : List Char) : List BCItem :=
  let ms := findAMatches text
  (List.range ms.length).foldl (fun acc i =>
    let m := ms.getD i (0, 0)
    let stop := if i + 1 < ms.length then (ms.getD (i + 1) (0, 0)).1 else text.length
    match parseItemText m.2 ((text.drop m.1).take (stop - m.1)) with
    | some item => acc ++ [item]
    | none => acc) []

/-- The keyword list of `PDFParser.findTableSection`. -/
def tableKeywords : List String :=
  ["LEMBAR LANJUTAN", "PEMBERITAHUAN IMPOR BARANG UNTUK DITIMBUN",
   "PEMBERITAHUAN IMPOR", "Pos Tarif/HS", "Pos TarifHS", "Pos Tarif HS",
   "Pos Taril/HS", "BC23", "BC 23", "BC 2.3", "TEMPAT PENIMBUNAN BERIKAT"]

/-- One position of the fuzzy fallback test
`/[\|\s]*\d+\s+[\[\(]?\d{4}[.,]?\d{2,3}[.,]?\d{3,4}/` (for a bare
existence test the nullable leading `[\|\s]*` is immaterial). -/
def fuzzyItemAt (l : List Char) : Option Unit :=
  let ds := l.takeWhile isDigitChar
  if ds.isEmpty then none
  else
    let r1 := l.drop ds.length
    let ws := r1.takeWhile isWSChar
    if ws.isEmpty then none
    else
      let r2 := r1.drop ws.length
      let r3 := match r2 with
        | '[' :: t => t
        | '(' :: t => t
        | _ => r2
      if (hsCoreCandidates r3).isEmpty then none else some ()

/-- `PDFParser.findTableSection`: any known keyword, or failing that the
fuzzy item-like pattern. -/
def findTableSection (text : List Char) : Bool :=
  tableKeywords.any (fun k => containsStr text k.data) ||
  (scanFirst fuzzyItemAt text).isSome

/-- `PDFParser.parseItems`: no table section is an error; otherwise
Strategy A's marker matches decide the branch — at least one match runs the
Strategy-A block parser, zero matches fall back to the OCR table parser. -/
def parseItems (text : String) : Except String (List BCItem) :=
  if findTableSection text.data then
    if (findAMatches text.data).isEmpty then
      Except.ok (ocrTableItems text.data)
    else
      Except.ok (strategyAItems text.data)
  else
    Except.error "Table section not found"

/-! ### The OCR orchestration (`PDFParser.extractTextWithOCR`,
`PDFParser.processPageWithOCR`, `PDFParser.preprocessImage`).

The effectful collaborators are oracles: `enhance` is the sharp
enhancement chain of `preprocessImage`, `recognize` the Tesseract call, and
`rasterize` the result of `pdfToPng`.  `Except.error` models a thrown
exception.  `Promise.all` over a batch joins deterministically by index,
so a batch is a pure `map`. -/

structure OCRWord where
  text : String
  confidence : ℚ
deriving DecidableEq, Repr

/-- `result.data`: the full text, the optional word list with confidences,
and the engine's reported overall confidence. -/
structure OCRData where
  text : String
  words : Option (List OCRWord)
  confidence : Option ℚ
deriving DecidableEq, Repr

/-- `PDFParser.preprocessImage`: run the enhancement chain; on any failure
return the original buffer unchanged. -/
def preprocessImage {Img : Type} (enhance : Img → Except String Img)
    (img : Img) : Img :=
  match enhance img with
  | Except.ok p => p
  | Except.error _ => img

/-- The confidence filter of `processPageWithOCR`: keep words at or above
the threshold, each followed by a space; without a word list, the raw page
text. -/
def filterWordsText (minConfidence : ℚ) (d : OCRData) : String :=
  match d.words with
  | some ws =>
    ws.foldl (fun acc w =>
      if minConfidence ≤ w.confidence then acc ++ w.text ++ " " else acc) ""
  | none => d.text

/-- `PDFParser.processPageWithOCR`: preprocess (self-recovering), recognise,
filter at confidence 30; a recognition failure is caught and yields the
empty fragment for the page. -/
def processPageWithOCR {Img : Type} (enhance : Img → Except String Img)
    (recognize : Img → Except String OCRData) (content : Img) : String :=
  match recognize (preprocessImage enhance content) with
  | Except.ok d => filterWordsText 30 d
  | Except.error _ => ""

/-- Recursion core of `chunksOf3` (structural on a fuel that the input
length always covers). -/
def chunksOf3Go {α : Type} : Nat → List α → List (List α)
  | _, [] => []
  | 0, _ => []
  | fuel + 1, x :: xs => (x :: xs.take 2) :: chunksOf3Go fuel (xs.drop 2)

/-- The batching loop's slices of three pages. -/
def chunksOf3 {α : Type} (l : List α) : List (List α) :=
  chunksOf3Go l.length l

/-- `ocrText += batchResults.join('\n\n')`: page fragments are joined with
a blank line inside a batch, and batches are concatenated directly. -/
def joinBatchTexts (frags : List String) : String :=
  ((chunksOf3 frags).map (fun b => String.intercalate "\n\n" b)).foldl
    (fun a b => a ++ b) ""

/-- `PDFParser.extractTextWithOCR`: a rasterization failure is caught and
re-thrown as the fatal OCR-setup error; otherwise every page is processed,
the fragments are joined batchwise, and the result is post-processed. -/
def extractTextWithOCR {Img : Type} (rasterize : Except String (List Img))
    (enhance : Img → Except String Img)
    (recognize : Img → Except String OCRData) : Except String String :=
  match rasterize with
  | Except.error _ => Except.error "Cannot extract text from scanned PDF. OCR failed."
  | Except.ok pages =>
    Except.ok (postProcessOCRText
      (joinBatchTexts (pages.map (processPageWithOCR enhance recognize))))

/-! ### Normal-form predicates for the whitespace-normalisation proofs -/

/-- Two characters are not both whitespace. -/
def NotBothWS (a b : Char) : Prop := ¬(isWSChar a = true ∧ isWSChar b = true)

/-- No two adjacent characters are both whitespace. -/
def NoAdjWS (l : List Char) : Prop := l.Chain' NotBothWS

/-- Drop one leading whitespace character unless it is a newline. -/
def dropHeadWsNN : List Char → List Char
  | [] => []
  | c :: r => if isWSChar c && c != '\n' then r else c :: r

/-- Drop one trailing whitespace character unless it is a newline. -/
def dropLastWsNN (l : List Char) : List Char :=
  (dropHeadWsNN l.reverse).reverse

/-- Drop a single strippable whitespace character from each end. -/
def stripEndWS (l : List Char) : List Char :=
  dropLastWsNN (dropHeadWsNN l)

/-! ## Lemmas: the whitespace stage of the text normaliser -/

theorem string_data_mk (l : List Char) : (String.mk l).data = l := rfl

theorem notBothWS_symm {a b : Char} (h : NotBothWS a b) : NotBothWS b a :=
  fun hp => h ⟨hp.2, hp.1⟩

theorem noAdj_reverse {l : List Char} : NoAdjWS l.reverse ↔ NoAdjWS l := by
  unfold NoAdjWS
  rw [List.chain'_reverse]
  exact ⟨fun h => h.imp fun a b hab => notBothWS_symm hab,
    fun h => h.imp fun a b hab => notBothWS_symm hab⟩

theorem noAdj_tail {c : Char} {l : List Char} (h : NoAdjWS (c :: l)) :
    NoAdjWS l := List.Chain'.tail h

theorem head_dropWhile_ws (l : List Char) :
    ∀ c, (l.dropWhile isWSChar).head? = some c → isWSChar c = false := by
  have h := List.head?_dropWhile_not isWSChar l
  intro c hc
  rw [hc] at h
  exact h

theorem dropWhile_eq_self_of_head {p : Char → Bool} {l : List Char}
    (h : ∀ c, l.head? = some c → p c = false) : l.dropWhile p = l := by
  cases l with
  | nil => rfl
  | cons c r => exact List.dropWhile_cons_of_neg (by simp [h c rfl])

theorem collapseWSGo_irrel :
    ∀ (f g : Nat) (l : List Char), l.length ≤ f → l.length ≤ g →
      collapseWSGo f l = collapseWSGo g l := by
  intro f
  induction f with
  | zero =>
    intro g l hf _
    have hnil : l = [] := by cases l <;> simp_all
    subst hnil
    cases g <;> rfl
  | succ f ihf =>
    intro g l hf hg
    cases g with
    | zero =>
      have hnil : l = [] := by cases l <;> simp_all
      subst hnil
      rfl
    | succ g =>
      match l with
      | [] => rfl
      | [c] => rfl
      | c1 :: c2 :: rest =>
        simp only [List.length_cons] at hf hg
        show (if isWSChar c1 && isWSChar c2 then
            ' ' :: collapseWSGo f ((c2 :: rest).dropWhile isWSChar)
          else c1 :: collapseWSGo f (c2 :: rest)) =
          (if isWSChar c1 && isWSChar c2 then
            ' ' :: collapseWSGo g ((c2 :: rest).dropWhile isWSChar)
          else c1 :: collapseWSGo g (c2 :: rest))
        have hd : ((c2 :: rest).dropWhile isWSChar).length ≤ rest.length + 1 := by
          simpa using (List.dropWhile_sublist (l := c2 :: rest) (p := isWSChar)).length_le
        by_cases h : (isWSChar c1 && isWSChar c2) = true
        · rw [if_pos h, if_pos h]
          congr 1
          exact ihf g _ (by omega) (by omega)
        · rw [if_neg h, if_neg h]
          congr 1
          exact ihf g _ (by simp only [List.length_cons]; omega)
            (by simp only [List.length_cons]; omega)

theorem collapseWS_nil : collapseWS [] = [] := rfl

theorem collapseWS_singleton (c : Char) : collapseWS [c] = [c] := rfl

theorem collapseWS_cons₂ (c1 c2 : Char) (rest : List Char) :
    collapseWS (c1 :: c2 :: rest) =
      if isWSChar c1 && isWSChar c2 then
        ' ' :: collapseWS ((c2 :: rest).dropWhile isWSChar)
      else
        c1 :: collapseWS (c2 :: rest) := by
  show (if isWSChar c1 && isWSChar c2 then
      ' ' :: collapseWSGo (rest.length + 1) ((c2 :: rest).dropWhile isWSChar)
    else c1 :: collapseWSGo (rest.length + 1) (c2 :: rest)) = _
  have hd : ((c2 :: rest).dropWhile isWSChar).length ≤ rest.length + 1 := by
    simpa using (List.dropWhile_sublist (l := c2 :: rest) (p := isWSChar)).length_le
  by_cases h : (isWSChar c1 && isWSChar c2) = true
  · rw [if_pos h, if_pos h]
    congr 1
    exact collapseWSGo_irrel _ _ _ hd le_rfl
  · rw [if_neg h, if_neg h]
    rfl

theorem collapseWS_cons_nonws (c : Char) (l : List Char)
    (h : isWSChar c = false) : collapseWS (c :: l) = c :: collapseWS l := by
  cases l with
  | nil => rw [collapseWS_singleton, collapseWS_nil]
  | cons c2 r => rw [collapseWS_cons₂]; simp [h]

theorem collapseWS_head_nonws {l : List Char}
    (h : ∀ c, l.head? = some c → isWSChar c = false) :
    ∀ y, (collapseWS l).head? = some y → isWSChar y = false := by
  cases l with
  | nil => intro y hy; rw [collapseWS_nil] at hy; cases hy
  | cons c r =>
    intro y hy
    rw [collapseWS_cons_nonws c r (h c rfl)] at hy
    simp only [List.head?_cons, Option.some.injEq] at hy
    exact hy ▸ h c rfl

theorem noAdj_collapseWS_aux (n : Nat) :
    ∀ l : List Char, l.length ≤ n → NoAdjWS (collapseWS l) := by
  induction n with
  | zero =>
    intro l hl
    have hnil : l = [] := by cases l <;> simp_all
    subst hnil
    rw [collapseWS_nil]
    exact List.chain'_nil
  | succ n ih =>
    intro l hl
    match l with
    | [] => rw [collapseWS_nil]; exact List.chain'_nil
    | [c] => rw [collapseWS_singleton]; exact List.chain'_singleton c
    | c1 :: c2 :: rest =>
      rw [collapseWS_cons₂]
      by_cases h : (isWSChar c1 && isWSChar c2) = true
      · rw [if_pos h]
        have h2 : isWSChar c2 = true := by
          have h' := h
          simp only [Bool.and_eq_true] at h'
          exact h'.2
        have hdw : (c2 :: rest).dropWhile isWSChar = rest.dropWhile isWSChar :=
          List.dropWhile_cons_of_pos h2
        have hlen : ((c2 :: rest).dropWhile isWSChar).length ≤ n := by
          rw [hdw]
          have := (List.dropWhile_sublist (l := rest) (p := isWSChar)).length_le
          simp only [List.length_cons] at hl
          omega
        have hch := ih _ hlen
        rw [NoAdjWS, List.chain'_cons']
        refine ⟨?_, hch⟩
        intro y hy
        have hnws : isWSChar y = false :=
          collapseWS_head_nonws (head_dropWhile_ws (c2 :: rest)) y
            (Option.mem_def.mp hy)
        exact fun hp => by rw [hnws] at hp; exact Bool.false_ne_true hp.2
      · rw [if_neg h]
        have hch := ih (c2 :: rest) (by simp only [List.length_cons] at hl ⊢; omega)
        rw [NoAdjWS, List.chain'_cons']
        refine ⟨?_, hch⟩
        intro y hy
        by_cases h2 : isWSChar c2 = true
        · have h1 : isWSChar c1 = false := by
            cases hw1 : isWSChar c1 with
            | false => rfl
            | true => exact absurd (by rw [hw1, h2]; rfl) h
          exact fun hp => by rw [h1] at hp; exact Bool.false_ne_true hp.1
        · have h2f : isWSChar c2 = false := by simpa using h2
          rw [collapseWS_cons_nonws c2 rest h2f] at hy
          simp only [List.head?_cons, Option.mem_def, Option.some.injEq] at hy
          subst hy
          exact fun hp => by rw [h2f] at hp; exact Bool.false_ne_true hp.2

theorem noAdj_collapseWS (l : List Char) : NoAdjWS (collapseWS l) :=
  noAdj_collapseWS_aux l.length l le_rfl

theorem notBothWS_and_false {c1 c2 : Char} (h : NotBothWS c1 c2) :
    (isWSChar c1 && isWSChar c2) = false := by
  cases h1 : isWSChar c1 with
  | false => rfl
  | true =>
    cases h2 : isWSChar c2 with
    | false => rfl
    | true => exact absurd ⟨h1, h2⟩ h

theorem collapseWS_eq_self {l : List Char} (h : NoAdjWS l) :
    collapseWS l = l := by
  induction l with
  | nil => exact collapseWS_nil
  | cons c tail ih =>
    cases tail with
    | nil => exact collapseWS_singleton c
    | cons c2 r =>
      rw [collapseWS_cons₂]
      have hcc := (List.chain'_cons.mp h).1
      rw [if_neg (by rw [notBothWS_and_false hcc]; exact Bool.false_ne_true)]
      rw [ih (noAdj_tail h)]

theorem collapseNLGo_irrel :
    ∀ (f g : Nat) (l : List Char), l.length ≤ f → l.length ≤ g →
      collapseNLGo f l = collapseNLGo g l := by
  intro f
  induction f with
  | zero =>
    intro g l hf _
    have hnil : l = [] := by cases l <;> simp_all
    subst hnil
    cases g <;> rfl
  | succ f ihf =>
    intro g l hf hg
    cases g with
    | zero =>
      have hnil : l = [] := by cases l <;> simp_all
      subst hnil
      rfl
    | succ g =>
      match l with
      | [] => rfl
      | c :: rest =>
        simp only [List.length_cons] at hf hg
        show (if c = '\n' then
            (if 4 ≤ (rest.takeWhile (fun d => d == '\n')).length + 1 then
              ['\n', '\n', '\n']
            else
              List.replicate ((rest.takeWhile (fun d => d == '\n')).length + 1) '\n') ++
              collapseNLGo f (rest.dropWhile (fun d => d == '\n'))
          else c :: collapseNLGo f rest) =
          (if c = '\n' then
            (if 4 ≤ (rest.takeWhile (fun d => d == '\n')).length + 1 then
              ['\n', '\n', '\n']
            else
              List.replicate ((rest.takeWhile (fun d => d == '\n')).length + 1) '\n') ++
              collapseNLGo g (rest.dropWhile (fun d => d == '\n'))
          else c :: collapseNLGo g rest)
        have hd : (rest.dropWhile (fun d => d == '\n')).length ≤ rest.length :=
          (List.dropWhile_sublist _).length_le
        by_cases h : c = '\n'
        · rw [if_pos h, if_pos h]
          congr 1
          exact ihf g _ (by omega) (by omega)
        · rw [if_neg h, if_neg h]
          congr 1
          exact ihf g _ (by omega) (by omega)

theorem collapseNL_nil : collapseNL [] = [] := rfl

theorem collapseNL_cons (c : Char) (rest : List Char) :
    collapseNL (c :: rest) =
      if c = '\n' then
        (if 4 ≤ (rest.takeWhile (fun d => d == '\n')).length + 1 then
          ['\n', '\n', '\n']
        else
          List.replicate ((rest.takeWhile (fun d => d == '\n')).length + 1) '\n') ++
          collapseNL (rest.dropWhile (fun d => d == '\n'))
      else c :: collapseNL rest := by
  show (if c = '\n' then
      (if 4 ≤ (rest.takeWhile (fun d => d == '\n')).length + 1 then
        ['\n', '\n', '\n']
      else
        List.replicate ((rest.takeWhile (fun d => d == '\n')).length + 1) '\n') ++
        collapseNLGo rest.length (rest.dropWhile (fun d => d == '\n'))
    else c :: collapseNLGo rest.length rest) = _
  have hd : (rest.dropWhile (fun d => d == '\n')).length ≤ rest.length :=
    (List.dropWhile_sublist _).length_le
  by_cases h : c = '\n'
  · rw [if_pos h, if_pos h]
    congr 1
    exact collapseNLGo_irrel _ _ _ hd le_rfl
  · rw [if_neg h, if_neg h]
    rfl

theorem collapseNL_eq_self {l : List Char} (h : NoAdjWS l) :
    collapseNL l = l := by
  induction l with
  | nil => exact collapseNL_nil
  | cons c rest ih =>
    rw [collapseNL_cons]
    by_cases hc : c = '\n'
    · subst hc
      rw [if_pos rfl]
      cases rest with
      | nil =>
        rw [List.takeWhile_nil, List.dropWhile_nil, collapseNL_nil]
        simp
      | cons d r =>
        have hd : isWSChar d = false := by
          have hcc := (List.chain'_cons.mp h).1
          cases hdw : isWSChar d with
          | false => rfl
          | true => exact absurd ⟨by decide, hdw⟩ hcc
        have hdn : (d == '\n') = false := by
          cases hdc : d == '\n' with
          | false => rfl
          | true =>
            have hde : d = '\n' := by simpa using hdc
            subst hde
            simp [isWSChar] at hd
        rw [List.takeWhile_cons_of_neg (by simp [hdn]),
          List.dropWhile_cons_of_neg (by simp [hdn])]
        simp only [List.length_nil]
        rw [if_neg (by omega)]
        rw [ih (noAdj_tail h)]
        rfl
    · rw [if_neg hc, ih (noAdj_tail h)]

theorem splitNL_ne_nil (l : List Char) : splitNL l ≠ [] := by
  cases l with
  | nil => simp [splitNL]
  | cons c rest =>
    rw [splitNL]
    by_cases hc : c = '\n'
    · simp [hc]
    · rw [if_neg hc]
      cases h : splitNL rest <;> simp

theorem joinNL_cons₂ (a s : List Char) (ss : List (List Char)) :
    joinNL (a :: s :: ss) = a ++ '\n' :: joinNL (s :: ss) := rfl

theorem splitNL_joinNL (l : List Char) : joinNL (splitNL l) = l := by
  induction l with
  | nil => rfl
  | cons c rest ih =>
    rw [splitNL]
    by_cases hc : c = '\n'
    · rw [if_pos hc]
      subst hc
      cases h : splitNL rest with
      | nil => exact absurd h (splitNL_ne_nil rest)
      | cons s ss =>
        rw [joinNL_cons₂, List.nil_append, ← h, ih]
    · rw [if_neg hc]
      have hj := ih
      cases h : splitNL rest with
      | nil => exact absurd h (splitNL_ne_nil rest)
      | cons s ss =>
        rw [h] at hj
        cases ss with
        | nil =>
          show joinNL [c :: s] = c :: rest
          have hs : s = rest := hj
          rw [joinNL, hs]
        | cons s2 ss2 =>
          show joinNL ((c :: s) :: s2 :: ss2) = c :: rest
          rw [joinNL_cons₂, List.cons_append]
          rw [joinNL_cons₂] at hj
          rw [hj]

theorem splitNL_mem_nlFree (l : List Char) :
    ∀ s ∈ splitNL l, '\n' ∉ s := by
  induction l with
  | nil =>
    intro s hs
    simp [splitNL] at hs
    simp [hs]
  | cons c rest ih =>
    intro s hs
    rw [splitNL] at hs
    by_cases hc : c = '\n'
    · rw [if_pos hc] at hs
      rcases List.mem_cons.mp hs with h1 | h1
      · simp [h1]
      · exact ih s h1
    · rw [if_neg hc] at hs
      cases h : splitNL rest with
      | nil => exact absurd h (splitNL_ne_nil rest)
      | cons s0 ss =>
        rw [h] at hs
        rcases List.mem_cons.mp hs with h1 | h1
        · subst h1
          intro hm
          rcases List.mem_cons.mp hm with h2 | h2
          · exact hc h2.symm
          · exact ih s0 (h ▸ List.mem_cons_self s0 ss) h2
        · exact ih s (h ▸ List.mem_cons_of_mem s0 h1)

theorem splitNL_of_nlFree (l : List Char) (h : '\n' ∉ l) :
    splitNL l = [l] := by
  induction l with
  | nil => rfl
  | cons c rest ih =>
    have hc : c ≠ '\n' := by
      intro he
      exact h (by rw [he]; exact List.mem_cons_self _ _)
    rw [splitNL, if_neg hc, ih (fun hm => h (List.mem_cons_of_mem c hm))]

theorem splitNL_append (a t : List Char) (ha : '\n' ∉ a) :
    splitNL (a ++ '\n' :: t) = a :: splitNL t := by
  induction a with
  | nil =>
    rw [List.nil_append, splitNL, if_pos rfl]
  | cons c a' ih =>
    have hc : c ≠ '\n' := fun he => ha (he ▸ List.mem_cons_self c a')
    rw [List.cons_append, splitNL, if_neg hc,
      ih (fun hm => ha (List.mem_cons_of_mem c hm))]

theorem nl_decomp (l : List Char) :
    '\n' ∉ l ∨ ∃ a t, l = a ++ '\n' :: t ∧ '\n' ∉ a := by
  have hsplit := List.takeWhile_append_dropWhile
    (p := fun c => c != '\n') (l := l)
  have htaker : '\n' ∉ l.takeWhile (fun c => c != '\n') := by
    intro hm
    have := List.mem_takeWhile_imp hm
    simp at this
  cases hd : l.dropWhile (fun c => c != '\n') with
  | nil =>
    left
    rw [← hsplit, hd, List.append_nil]
    exact htaker
  | cons d t =>
    right
    have hdn : d = '\n' := by
      have h := List.head?_dropWhile_not (fun c => c != '\n') l
      rw [hd] at h
      simpa using h
    refine ⟨l.takeWhile (fun c => c != '\n'), t, ?_, htaker⟩
    conv_lhs => rw [← hsplit]
    rw [hd, hdn]

theorem dropHeadWsNN_cons (c : Char) (r : List Char) :
    dropHeadWsNN (c :: r) =
      if isWSChar c && c != '\n' then r else c :: r := rfl

theorem getLast?_dropWhile_ws (l : List Char)
    (h : l.dropWhile isWSChar ≠ []) :
    (l.dropWhile isWSChar).getLast? = l.getLast? := by
  obtain ⟨t, ht⟩ := List.dropWhile_suffix (l := l) isWSChar
  conv_rhs => rw [← ht]
  exact (List.getLast?_append_of_ne_nil t h).symm

theorem trimLine_eq_dropWhile {l : List Char}
    (h : ∀ c, l.getLast? = some c → isWSChar c = false) :
    trimLine l = l.dropWhile isWSChar := by
  unfold trimLine
  cases hu : l.dropWhile isWSChar with
  | nil => simp
  | cons u0 ur =>
    have hne : l.dropWhile isWSChar ≠ [] := by rw [hu]; simp
    have hlast : ((u0 :: ur).getLast?) = l.getLast? := by
      rw [← hu]
      exact getLast?_dropWhile_ws l hne
    have hhead : ∀ c, (u0 :: ur).reverse.head? = some c → isWSChar c = false := by
      intro c hc
      rw [List.head?_reverse, hlast] at hc
      exact h c hc
    rw [← hu, dropWhile_eq_self_of_head (by rw [hu]; exact hhead),
      List.reverse_reverse]

theorem noAdj_head_pair {c : Char} {r : List Char} (h : NoAdjWS (c :: r))
    (hc : isWSChar c = true) :
    ∀ d, r.head? = some d → isWSChar d = false := by
  intro d hd
  have hp := (List.chain'_cons'.mp h).1 d (Option.mem_def.mpr hd)
  cases he : isWSChar d with
  | false => rfl
  | true => exact absurd ⟨hc, he⟩ hp

theorem dropWhile_ws_noAdj {l : List Char} (h : NoAdjWS l)
    (hnl : '\n' ∉ l) : l.dropWhile isWSChar = dropHeadWsNN l := by
  cases l with
  | nil => rfl
  | cons c r =>
    by_cases hw : isWSChar c = true
    · have hcn : (c != '\n') = true := by
        have : c ≠ '\n' := fun he => hnl (by rw [he]; exact List.mem_cons_self _ _)
        simpa using this
      rw [List.dropWhile_cons_of_pos hw, dropHeadWsNN_cons,
        if_pos (by rw [hw, hcn]; rfl)]
      exact dropWhile_eq_self_of_head (noAdj_head_pair h hw)
    · have hwf : isWSChar c = false := by simpa using hw
      rw [List.dropWhile_cons_of_neg (by simp [hwf]), dropHeadWsNN_cons,
        if_neg (by simp [hwf])]

theorem noAdj_dropHeadWsNN {l : List Char} (h : NoAdjWS l) :
    NoAdjWS (dropHeadWsNN l) := by
  cases l with
  | nil => exact h
  | cons c r =>
    rw [dropHeadWsNN_cons]
    by_cases hc : (isWSChar c && c != '\n') = true
    · rw [if_pos hc]; exact noAdj_tail h
    · rw [if_neg hc]; exact h

theorem nl_not_mem_dropHeadWsNN {l : List Char} (h : '\n' ∉ l) :
    '\n' ∉ dropHeadWsNN l := by
  cases l with
  | nil => exact h
  | cons c r =>
    rw [dropHeadWsNN_cons]
    by_cases hc : (isWSChar c && c != '\n') = true
    · rw [if_pos hc]
      exact fun hm => h (List.mem_cons_of_mem c hm)
    · rw [if_neg hc]; exact h

theorem noAdj_dropLastWsNN {l : List Char} (h : NoAdjWS l) :
    NoAdjWS (dropLastWsNN l) := by
  unfold dropLastWsNN
  exact noAdj_reverse.mpr (noAdj_dropHeadWsNN (noAdj_reverse.mpr h))

theorem noAdj_stripEndWS {l : List Char} (h : NoAdjWS l) :
    NoAdjWS (stripEndWS l) :=
  noAdj_dropLastWsNN (noAdj_dropHeadWsNN h)

theorem dropHeadWsNN_append_cons (a : List Char) (b : Char) (t : List Char)
    (hb : (isWSChar b && b != '\n') = false) :
    dropHeadWsNN (a ++ b :: t) = dropHeadWsNN a ++ b :: t := by
  cases a with
  | nil =>
    rw [List.nil_append, dropHeadWsNN_cons, if_neg (by simp [hb])]
    rfl
  | cons c a' =>
    rw [List.cons_append, dropHeadWsNN_cons, dropHeadWsNN_cons]
    by_cases hc : (isWSChar c && c != '\n') = true
    · rw [if_pos hc, if_pos hc]
    · rw [if_neg hc, if_neg hc, List.cons_append]

theorem dropLastWsNN_append_right (x t : List Char) (ht : t ≠ []) :
    dropLastWsNN (x ++ t) = x ++ dropLastWsNN t := by
  unfold dropLastWsNN
  rw [List.reverse_append]
  have h1 : dropHeadWsNN (t.reverse ++ x.reverse) =
      dropHeadWsNN t.reverse ++ x.reverse := by
    cases htr : t.reverse with
    | nil => exact absurd (by simpa using htr) ht
    | cons c z =>
      rw [List.cons_append, dropHeadWsNN_cons, dropHeadWsNN_cons]
      by_cases hc : (isWSChar c && c != '\n') = true
      · rw [if_pos hc, if_pos hc]
      · rw [if_neg hc, if_neg hc, List.cons_append]
  rw [h1, List.reverse_append, List.reverse_reverse]

theorem dropLastWsNN_nl_singleton : dropLastWsNN ['\n'] = ['\n'] := by
  unfold dropLastWsNN
  simp [dropHeadWsNN_cons]

theorem dropLastWsNN_append_nl (x t : List Char) :
    dropLastWsNN (x ++ '\n' :: t) = x ++ '\n' :: dropLastWsNN t := by
  cases t with
  | nil =>
    rw [dropLastWsNN_append_right x ['\n'] (by simp), dropLastWsNN_nl_singleton]
    rfl
  | cons d r =>
    rw [dropLastWsNN_append_right x ('\n' :: d :: r) (by simp)]
    have : ('\n' :: d :: r) = ['\n'] ++ (d :: r) := rfl
    rw [this, dropLastWsNN_append_right ['\n'] (d :: r) (by simp)]
    rfl

theorem dropHeadWsNN_eq_self {l : List Char}
    (h : ∀ c, l.head? = some c → (isWSChar c && c != '\n') = false) :
    dropHeadWsNN l = l := by
  cases l with
  | nil => rfl
  | cons c r => rw [dropHeadWsNN_cons, if_neg (by simp [h c rfl])]

theorem trimLines_cons_line (a t : List Char) (ha : '\n' ∉ a) :
    trimLines (a ++ '\n' :: t) = trimLine a ++ '\n' :: trimLines t := by
  rw [trimLines, splitNL_append a t ha, List.map_cons]
  cases hS : (splitNL t).map trimLine with
  | nil =>
    exact absurd (List.map_eq_nil_iff.mp hS) (splitNL_ne_nil t)
  | cons s ss =>
    rw [joinNL_cons₂, trimLines, ← hS]

theorem trimLines_single (y : List Char) (h : '\n' ∉ y) :
    trimLines y = trimLine y := by
  rw [trimLines, splitNL_of_nlFree y h]
  rfl

theorem trimLines_eq_strip_aux (n : Nat) :
    ∀ y : List Char, y.length ≤ n → NoAdjWS y →
      trimLines y = stripEndWS y := by
  induction n with
  | zero =>
    intro y hy _
    have hnil : y = [] := by cases y <;> simp_all
    subst hnil
    rfl
  | succ n ih =>
    intro y hy hNA
    rcases nl_decomp y with hnf | ⟨a, t, rfl, hanf⟩
    · -- a single line, no newline anywhere
      rw [trimLines_single y hnf]
      have h2 : y.dropWhile isWSChar = dropHeadWsNN y :=
        dropWhile_ws_noAdj hNA hnf
      have hu_na : NoAdjWS (dropHeadWsNN y) := noAdj_dropHeadWsNN hNA
      have hu_nf : '\n' ∉ (dropHeadWsNN y).reverse := by
        rw [List.mem_reverse]
        exact nl_not_mem_dropHeadWsNN hnf
      have h3 : (dropHeadWsNN y).reverse.dropWhile isWSChar =
          dropHeadWsNN (dropHeadWsNN y).reverse :=
        dropWhile_ws_noAdj (noAdj_reverse.mpr hu_na) hu_nf
      show ((y.dropWhile isWSChar).reverse.dropWhile isWSChar).reverse = _
      rw [h2, h3]
      rfl
    · -- y = a ++ '\n' :: t
      have hch := (List.chain'_append).mp hNA
      have hNAa : NoAdjWS a := hch.1
      have hNAnt : NoAdjWS ('\n' :: t) := hch.2.1
      have hNAt : NoAdjWS t := noAdj_tail hNAnt
      have hlen : t.length ≤ n := by
        have := hy
        simp only [List.length_append, List.length_cons] at this
        omega
      have iht := ih t hlen hNAt
      have haLast : ∀ c, a.getLast? = some c → isWSChar c = false := by
        intro c hc
        have hp := hch.2.2 c (Option.mem_def.mpr hc) '\n'
          (Option.mem_def.mpr rfl)
        cases he : isWSChar c with
        | false => rfl
        | true => exact absurd ⟨he, by decide⟩ hp
      have hth : ∀ c, t.head? = some c → isWSChar c = false := by
        intro c hc
        have hp := (List.chain'_cons'.mp hNAnt).1 c (Option.mem_def.mpr hc)
        cases he : isWSChar c with
        | false => rfl
        | true => exact absurd ⟨by decide, he⟩ hp
      have hstript : stripEndWS t = dropLastWsNN t := by
        rw [stripEndWS, dropHeadWsNN_eq_self (fun c hc => by
          rw [hth c hc]; rfl)]
      rw [trimLines_cons_line a t hanf, iht, hstript,
        trimLine_eq_dropWhile haLast, dropWhile_ws_noAdj hNAa hanf]
      rw [stripEndWS, dropHeadWsNN_append_cons a '\n' t (by decide),
        dropLastWsNN_append_nl]

theorem trimLines_eq_strip {y : List Char} (h : NoAdjWS y) :
    trimLines y = stripEndWS y :=
  trimLines_eq_strip_aux y.length y le_rfl h

theorem dropHeadWsNN_idem {l : List Char} (h : NoAdjWS l) :
    dropHeadWsNN (dropHeadWsNN l) = dropHeadWsNN l := by
  cases l with
  | nil => rfl
  | cons c r =>
    rw [dropHeadWsNN_cons]
    by_cases hc : (isWSChar c && c != '\n') = true
    · rw [if_pos hc]
      have hcw : isWSChar c = true := by
        have := hc
        simp only [Bool.and_eq_true] at this
        exact this.1
      exact dropHeadWsNN_eq_self (fun d hd => by
        rw [noAdj_head_pair h hcw d hd]; rfl)
    · rw [if_neg hc, dropHeadWsNN_cons, if_neg hc]

theorem keep_head_cond {l : List Char} (h : dropHeadWsNN l = l) :
    ∀ c, l.head? = some c → (isWSChar c && c != '\n') = false := by
  intro c hc
  cases l with
  | nil => cases hc
  | cons c0 r =>
    simp only [List.head?_cons, Option.some.injEq] at hc
    cases hcond : (isWSChar c0 && c0 != '\n') with
    | false => rw [hc] at hcond; exact hcond
    | true =>
      rw [dropHeadWsNN_cons, if_pos hcond] at h
      have hlen := congrArg List.length h
      simp at hlen

theorem head?_dropLastWsNN (l : List Char) :
    dropLastWsNN l = [] ∨ (dropLastWsNN l).head? = l.head? := by
  cases l with
  | nil => left; rfl
  | cons c r =>
    cases r with
    | nil =>
      unfold dropLastWsNN
      rw [List.reverse_singleton, dropHeadWsNN_cons]
      by_cases hc : (isWSChar c && c != '\n') = true
      · left; rw [if_pos hc]; rfl
      · right; rw [if_neg hc]; rfl
    | cons d r' =>
      right
      have : c :: d :: r' = [c] ++ (d :: r') := rfl
      rw [this, dropLastWsNN_append_right [c] (d :: r') (by simp)]
      rfl

theorem stripEndWS_idem {y : List Char} (h : NoAdjWS y) :
    stripEndWS (stripEndWS y) = stripEndWS y := by
  have hx1 : NoAdjWS (dropHeadWsNN y) := noAdj_dropHeadWsNN h
  have hh : dropHeadWsNN (dropHeadWsNN y) = dropHeadWsNN y :=
    dropHeadWsNN_idem h
  have hA : dropHeadWsNN (stripEndWS y) = stripEndWS y := by
    rcases head?_dropLastWsNN (dropHeadWsNN y) with hz | hz
    · rw [stripEndWS, hz]; rfl
    · exact dropHeadWsNN_eq_self (fun c hc =>
        keep_head_cond hh c (by rw [← hz]; exact hc))
  have hB : dropLastWsNN (stripEndWS y) = stripEndWS y := by
    show dropLastWsNN (dropLastWsNN (dropHeadWsNN y)) =
      dropLastWsNN (dropHeadWsNN y)
    calc dropLastWsNN (dropLastWsNN (dropHeadWsNN y))
        = (dropHeadWsNN
            ((dropHeadWsNN (dropHeadWsNN y).reverse).reverse).reverse).reverse := rfl
      _ = (dropHeadWsNN (dropHeadWsNN (dropHeadWsNN y).reverse)).reverse := by
            rw [List.reverse_reverse]
      _ = (dropHeadWsNN (dropHeadWsNN y).reverse).reverse := by
            rw [dropHeadWsNN_idem (noAdj_reverse.mpr hx1)]
      _ = dropLastWsNN (dropHeadWsNN y) := rfl
  rw [stripEndWS, hA, hB]

/-- The whitespace-normalisation stage of `postProcessOCRText` is
idempotent. -/
theorem wsStage_idem (l : List Char) : wsStage (wsStage l) = wsStage l := by
  have hNAy : NoAdjWS (collapseWS l) := noAdj_collapseWS l
  have h1 : collapseNL (collapseWS l) = collapseWS l := collapseNL_eq_self hNAy
  have hx : wsStage l = stripEndWS (collapseWS l) := by
    rw [wsStage, h1]
    exact trimLines_eq_strip hNAy
  have hNAx : NoAdjWS (stripEndWS (collapseWS l)) := noAdj_stripEndWS hNAy
  rw [hx, wsStage, collapseWS_eq_self hNAx, collapseNL_eq_self hNAx,
    trimLines_eq_strip hNAx]
  exact stripEndWS_idem hNAy

/-! ## Claim theorems -/

/-- C1: the reconciliation pipeline does not use the duplicate group's
summed quantity.  For two reference rows sharing (aju, seri) with
quantities 2 and 3 against an extracted item of quantity 4,
`processDuplicateSeri` annotates both rows with `qtyToCheck = 5`, but
`validateBatch`/`validateItem` compare each row's own `qty` (2 ≤ 4 and
3 ≤ 4), so both rows get quantity status OK — not OVER LIMIT as the claim
requires. -/
theorem duplicateSeri_sum_computed_but_not_compared :
    (processDuplicateSeri (mkValidatorOptions (some (3 / 4)) (some true) none)
        [⟨1, "X1", "Part A", 2, 1, "AJU1"⟩, ⟨2, "X1", "Part A", 3, 1, "AJU1"⟩]).map
        (fun p => p.qtyToCheck) = [some 5, some 5] ∧
    (validateBatch (mkValidatorOptions (some (3 / 4)) (some true) none)
        (processDuplicateSeri (mkValidatorOptions (some (3 / 4)) (some true) none)
          [⟨1, "X1", "Part A", 2, 1, "AJU1"⟩, ⟨2, "X1", "Part A", 3, 1, "AJU1"⟩])
        [⟨1, "X1", "", some 4, "PCS"⟩]).map (fun r => r.validation.qty) =
      [VStatus.ok, VStatus.ok] ∧
    (validateQty 5 (some 4)).status = VStatus.overLimit := by
  refine ⟨?_, ?_, ?_⟩
  · have h : (processDuplicateSeri
        (mkValidatorOptions (some (3 / 4)) (some true) none)
        [⟨1, "X1", "Part A", 2, 1, "AJU1"⟩, ⟨2, "X1", "Part A", 3, 1, "AJU1"⟩]).map
        (fun p => p.qtyToCheck) =
        [some ((0 : ℚ) + 2 + 3), some ((0 : ℚ) + 2 + 3)] := rfl
    rw [h]
    norm_num
  · rfl
  · rfl

/-- C2: the whitespace step does not implement the claimed newline rule.
The run of four newlines in `"a\n\n\n\nb"` is consumed by the
`\s{2,} → ' '` collapse before the `\n{4,} → '\n\n\n'` replacement can see
it, so the output is `"a b"` rather than the claimed `"a\n\n\nb"`; a run of
two newlines, which the claim says is preserved, is likewise collapsed to a
single space. -/
theorem postProcess_newline_runs_become_spaces :
    postProcessOCRText "a\n\n\n\nb" = "a b" ∧
    postProcessOCRText "x\n\ny\nz" = "x y\nz" := by
  constructor
  · decide
  · decide

/-- C3: the OCR quantity parser maps `"1.0000"` to 1, `"3.150,0000"` to
3150 and `"470,0000"` to 470, following the dot/comma disambiguation
branches of `parseOCRItemText`. -/
theorem parseOCRQty_examples :
    parseOCRQty "1.0000" = some 1 ∧
    parseOCRQty "3.150,0000" = some 3150 ∧
    parseOCRQty "470,0000" = some 470 := by
  refine ⟨?_, ?_, ?_⟩
  · have h : parseOCRQty "1.0000" =
        some (((1 : ℕ) : ℚ) + ((0 : ℕ) : ℚ) / (10 : ℚ) ^ (4 : ℕ)) := rfl
    rw [h]
    norm_num
  · have h : parseOCRQty "3.150,0000" =
        some (((3150 : ℕ) : ℚ) + ((0 : ℕ) : ℚ) / (10 : ℚ) ^ (4 : ℕ)) := rfl
    rw [h]
    norm_num
  · have h : parseOCRQty "470,0000" =
        some (((470 : ℕ) : ℚ) + ((0 : ℕ) : ℚ) / (10 : ℚ) ^ (4 : ℕ)) := rfl
    rw [h]
    norm_num

/-- C4: tariff-code normalisation maps all four input shapes to the
canonical `"8479.903000"`. -/
theorem normalizeHSCode_examples :
    normalizeHSCodeS "8479903000" = "8479.903000" ∧
    normalizeHSCodeS "8479.903000" = "8479.903000" ∧
    normalizeHSCodeS "8479.90.3000" = "8479.903000" ∧
    normalizeHSCodeS "[8479.903000" = "8479.903000" := by
  refine ⟨by decide, by decide, by decide, by decide⟩

/-- C5 (counterexample): `postProcessOCRText` is not idempotent.  On
`"Kode  8rg"` the first pass only collapses the double space (the phrase
table needs a single space to match), and the second pass then rewrites the
newly formed `"Kode 8rg"` to `"Kode Brg"`. -/
theorem postProcessOCRText_not_idempotent :
    postProcessOCRText (postProcessOCRText "Kode  8rg") ≠
      postProcessOCRText "Kode  8rg" := by
  decide

/-- C5 (amended): `postProcessOCRText` is idempotent on every text whose
once-normalised form the phrase-replacement pass leaves unchanged; the
whitespace stage itself is idempotent (`wsStage_idem`), so a second
application can only differ through a new phrase-table match. -/
theorem postProcessOCRText_conditionally_idempotent :
    ∀ t : String,
      phraseStageS (postProcessOCRText t) = postProcessOCRText t →
      postProcessOCRText (postProcessOCRText t) = postProcessOCRText t := by
  intro t h
  simp only [postProcessOCRText, phraseStageS] at h ⊢
  have h' : phraseStage (wsStage (phraseStage t.data)) =
      wsStage (phraseStage t.data) := by
    have hd := congrArg String.data h
    simpa only [string_data_mk] using hd
  exact congrArg String.mk (by rw [h', wsStage_idem])

theorem postProcessOCRText_conditionally_idempotent_witness :
    phraseStageS (postProcessOCRText "LEMBAR LANJUTAN") =
      postProcessOCRText "LEMBAR LANJUTAN" ∧
    postProcessOCRText (postProcessOCRText "LEMBAR LANJUTAN") =
      postProcessOCRText "LEMBAR LANJUTAN" :=
  ⟨by decide,
   postProcessOCRText_conditionally_idempotent "LEMBAR LANJUTAN" (by decide)⟩

/-- C6: `parseItems` dispatch.  When the table section is found, zero
Strategy-A marker matches make the result exactly the OCR-table parser's
output (Strategy B attempted on the same text), and at least one match
makes the result exactly Strategy A's output (Strategy B never attempted);
without a table section the function throws instead of concluding zero
items. -/
theorem parseItems_fallback_dispatch :
    ∀ text : String,
      (findTableSection text.data = true →
        ((findAMatches text.data).isEmpty = true →
          parseItems text = Except.ok (ocrTableItems text.data)) ∧
        ((findAMatches text.data).isEmpty = false →
          parseItems text = Except.ok (strategyAItems text.data))) ∧
      (findTableSection text.data = false →
        parseItems text = Except.error "Table section not found") := by
  intro text
  refine ⟨fun htab => ⟨fun hemp => ?_, fun hne => ?_⟩, fun hfalse => ?_⟩
  · rw [parseItems, if_pos htab, if_pos hemp]
  · rw [parseItems, if_pos htab,
      if_neg (by rw [hne]; exact Bool.false_ne_true)]
  · rw [parseItems, if_neg (by rw [hfalse]; exact Bool.false_ne_true)]

theorem parseItems_fallback_dispatch_witness :
    findTableSection ("Pos Tarif/HS\n1 8479.903000 1.0000 Piece (PCE)").data = true ∧
    (findAMatches ("Pos Tarif/HS\n1 8479.903000 1.0000 Piece (PCE)").data).isEmpty = true ∧
    parseItems "Pos Tarif/HS\n1 8479.903000 1.0000 Piece (PCE)" =
      Except.ok (ocrTableItems ("Pos Tarif/HS\n1 8479.903000 1.0000 Piece (PCE)").data) := by
  refine ⟨by decide, by decide, ?_⟩
  exact ((parseItems_fallback_dispatch
    "Pos Tarif/HS\n1 8479.903000 1.0000 Piece (PCE)").1 (by decide)).1 (by decide)

/-- C7: for every matched reference row, the overall status equals the
spec's decision table on the two field statuses: OK iff both are OK, ERROR
if either is ERROR, WARNING otherwise. -/
theorem validateItem_overall_matches_spec :
    ∀ (opts : VOptions) (it : ProcItem) (bc : BCItem),
      (validateItem opts it (some bc)).validation.overall =
        specOverallStatus
          (validateItem opts it (some bc)).validation.itemCode
          (validateItem opts it (some bc)).validation.qty := by
  intro opts it bc
  show overallStatus (validateItemCode opts it.itemCode bc.kodeBrg).status
      (validateQty it.qty bc.qty).status =
    specOverallStatus (validateItemCode opts it.itemCode bc.kodeBrg).status
      (validateQty it.qty bc.qty).status
  generalize (validateItemCode opts it.itemCode bc.kodeBrg).status = a
  generalize (validateQty it.qty bc.qty).status = b
  cases a <;> cases b <;> rfl

/-- C8: a recognition failure on one page yields the empty fragment for
that page while extraction still completes with the concatenation of all
per-page fragments, whereas a rasterization failure makes
`extractTextWithOCR` return the fatal OCR-setup error. -/
theorem ocr_page_failure_isolated :
    ∀ {Img : Type} (enhance : Img → Except String Img)
      (recognize : Img → Except String OCRData) (pages : List Img)
      (i : Nat) (hi : i < pages.length) (msg : String),
      recognize (preprocessImage enhance pages[i]) = Except.error msg →
      extractTextWithOCR (Except.ok pages) enhance recognize =
          Except.ok (postProcessOCRText (joinBatchTexts
            (pages.map (processPageWithOCR enhance recognize)))) ∧
        (pages.map (processPageWithOCR enhance recognize))[i]? = some "" ∧
        ∀ msg2 : String,
          extractTextWithOCR (Except.error msg2) enhance recognize =
            Except.error "Cannot extract text from scanned PDF. OCR failed." := by
  intro Img enhance recognize pages i hi msg hrec
  refine ⟨rfl, ?_, fun msg2 => rfl⟩
  rw [List.getElem?_map, List.getElem?_eq_getElem hi]
  show some (processPageWithOCR enhance recognize pages[i]) = some ""
  rw [processPageWithOCR, hrec]

theorem ocr_page_failure_isolated_witness :
    ([0, 1, 2].map (processPageWithOCR (fun b : Nat => Except.ok b)
      (fun n : Nat => if n = 1 then Except.error "recognition failed"
        else Except.ok ⟨"w", none, none⟩)))[1]? = some "" ∧
    extractTextWithOCR (Except.error "bad pdf") (fun b : Nat => Except.ok b)
      (fun n : Nat => if n = 1 then Except.error "recognition failed"
        else Except.ok ⟨"w", none, none⟩) =
      Except.error "Cannot extract text from scanned PDF. OCR failed." := by
  have h := ocr_page_failure_isolated (fun b : Nat => Except.ok b)
    (fun n => if n = 1 then Except.error "recognition failed"
      else Except.ok ⟨"w", none, none⟩) [0, 1, 2] 1 (by decide)
    "recognition failed" rfl
  exact ⟨h.2.1, h.2.2 "bad pdf"⟩

/-- C9: the constructor's `||` default makes a threshold of 0 (or an absent
option) resolve to the default 0.75, so a similarity threshold of exactly
zero can never be configured. -/
theorem validatorThreshold_zero_falls_back :
    (∀ a s, (mkValidatorOptions (some 0) a s).nameSimilarityThreshold = 3 / 4) ∧
    (∀ a s, (mkValidatorOptions none a s).nameSimilarityThreshold = 3 / 4) ∧
    (∀ t a s, (mkValidatorOptions t a s).nameSimilarityThreshold ≠ 0) := by
  refine ⟨fun a s => by simp [mkValidatorOptions], fun a s => rfl, ?_⟩
  intro t a s
  cases t with
  | none =>
    show (3 : ℚ) / 4 ≠ 0
    norm_num
  | some v =>
    show (if v = 0 then (3 : ℚ) / 4 else v) ≠ 0
    by_cases hv : v = 0
    · rw [if_pos hv]; norm_num
    · rw [if_neg hv]; exact hv

theorem validatorThreshold_zero_falls_back_witness :
    (mkValidatorOptions (some 0) none none).nameSimilarityThreshold = 3 / 4 ∧
    (mkValidatorOptions (some (1 / 2)) none none).nameSimilarityThreshold ≠ 0 :=
  ⟨validatorThreshold_zero_falls_back.1 none none,
   validatorThreshold_zero_falls_back.2.2 (some (1 / 2)) none none⟩

/-- C10: `preprocessImage` is total at its interface: when the enhancement
chain fails, the original buffer is returned unchanged, and the page's
outcome is exactly what recognition of the original buffer yields — a
preprocessing failure alone never produces the page-failure branch. -/
theorem preprocess_failure_returns_original :
    ∀ {Img : Type} (enhance : Img → Except String Img)
      (recognize : Img → Except String OCRData) (img : Img) (msg : String),
      enhance img = Except.error msg →
      preprocessImage enhance img = img ∧
      processPageWithOCR enhance recognize img =
        (match recognize img with
         | Except.ok d => filterWordsText 30 d
         | Except.error _ => "") := by
  intro Img enhance recognize img msg henh
  have hpre : preprocessImage enhance img = img := by
    rw [preprocessImage, henh]
  refine ⟨hpre, ?_⟩
  rw [processPageWithOCR, hpre]

theorem preprocess_failure_returns_original_witness :
    preprocessImage (fun _ : Nat => Except.error "sharp failed") 7 = 7 ∧
    processPageWithOCR (fun _ : Nat => Except.error "sharp failed")
      (fun _ : Nat => Except.ok ⟨"t", none, none⟩) 7 = "t" := by
  have h := preprocess_failure_returns_original
    (fun _ : Nat => Except.error "sharp failed")
    (fun _ => Except.ok ⟨"t", none, none⟩) 7 "sharp failed" rfl
  exact ⟨h.1, h.2.trans (by rfl)⟩

end ILS
